import Mathlib

/-!
Verification of the rtracer core (a small sphere path tracer).

Shallow embedding conventions:
* `f64` values are embedded as real numbers; floating point rounding is not
  modelled.  `f64::MAX` and `f64::EPSILON` are embedded as their exact real
  values.
* the global linear congruential generator of `rng.rs` is embedded by passing
  its state (a natural number; every reachable state lies in `[0, 134456)`)
  explicitly; random draws consumed by `scatter` and by the camera are passed
  as explicit parameters, so theorems quantify over every possible draw.
* a Rust panic (a failed `assert!` / `assert_ne!`) is embedded as the
  `Except.error` branch; absorption of a ray is the `Except.ok none` branch.
* fields and functions keep the names of the Rust source (`vec.rs`, `ray.rs`,
  `rng.rs`, `shape.rs`, `material.rs`, `camera.rs`, `lib.rs`).
-/

noncomputable section

/-- Vec3 from vec.rs: a triple of reals, used as position, direction and
color. -/
@[ext] structure Vec3 where
  x : ℝ
  y : ℝ
  z : ℝ

namespace Vec3

/-- impl Add for Vec3 (componentwise). -/
instance : Add Vec3 := ⟨fun a b => ⟨a.x + b.x, a.y + b.y, a.z + b.z⟩⟩

/-- impl Sub for Vec3 (componentwise). -/
instance : Sub Vec3 := ⟨fun a b => ⟨a.x - b.x, a.y - b.y, a.z - b.z⟩⟩

/-- impl Neg for Vec3 (componentwise). -/
instance : Neg Vec3 := ⟨fun a => ⟨-a.x, -a.y, -a.z⟩⟩

/-- impl Mul of Vec3 for Vec3 (componentwise, used for color attenuation). -/
instance : Mul Vec3 := ⟨fun a b => ⟨a.x * b.x, a.y * b.y, a.z * b.z⟩⟩

/-- Scalar multiplication: the source's `Vec3 * f64` and `f64 * Vec3` (both
multiply every component by the scalar). -/
instance : SMul ℝ Vec3 := ⟨fun t v => ⟨v.x * t, v.y * t, v.z * t⟩⟩

@[simp] lemma add_def (a b : Vec3) : a + b = ⟨a.x + b.x, a.y + b.y, a.z + b.z⟩ := rfl

@[simp] lemma sub_def (a b : Vec3) : a - b = ⟨a.x - b.x, a.y - b.y, a.z - b.z⟩ := rfl

@[simp] lemma neg_def (a : Vec3) : -a = ⟨-a.x, -a.y, -a.z⟩ := rfl

@[simp] lemma mul_def (a b : Vec3) : a * b = ⟨a.x * b.x, a.y * b.y, a.z * b.z⟩ := rfl

@[simp] lemma smul_def (t : ℝ) (v : Vec3) : t • v = ⟨v.x * t, v.y * t, v.z * t⟩ := rfl

/-- Vec3::norm_squared. -/
def norm_squared (v : Vec3) : ℝ := v.x * v.x + v.y * v.y + v.z * v.z

/-- Vec3::norm. -/
def norm (v : Vec3) : ℝ := Real.sqrt (v.x * v.x + v.y * v.y + v.z * v.z)

/-- Vec3::dot. -/
def dot (a b : Vec3) : ℝ := a.x * b.x + a.y * b.y + a.z * b.z

/-- Vec3::cross. -/
def cross (a b : Vec3) : Vec3 :=
  ⟨a.y * b.z - a.z * b.y, a.z * b.x - a.x * b.z, a.x * b.y - a.y * b.x⟩

/-- vec.rs ZERO constant. -/
def ZERO : Vec3 := ⟨0, 0, 0⟩

/-- f64::EPSILON, the machine epsilon of a double, as an exact real. -/
def f64_EPSILON : ℝ := (2 : ℝ) ^ (-52 : ℤ)

/-- Vec3::almost_zero: every component is smaller than machine epsilon in
absolute value. -/
def almost_zero (v : Vec3) : Prop :=
  |v.x| < f64_EPSILON ∧ |v.y| < f64_EPSILON ∧ |v.z| < f64_EPSILON

instance (v : Vec3) : Decidable v.almost_zero := by
  unfold almost_zero; infer_instance

/-- Vec3::to_unit_vec.  The source asserts that the norm is nonzero (a panic
when it is zero), embedded as the `none` branch, and otherwise returns the
vector scaled by the inverse norm. -/
def to_unit_vec (v : Vec3) : Option Vec3 :=
  if v.norm = 0 then none else some ((1 / v.norm) • v)

lemma norm_squared_nonneg (v : Vec3) : 0 ≤ v.norm_squared := by
  unfold norm_squared
  nlinarith [mul_self_nonneg v.x, mul_self_nonneg v.y, mul_self_nonneg v.z]

lemma norm_squared_eq_zero_iff (v : Vec3) : v.norm_squared = 0 ↔ v = ZERO := by
  unfold norm_squared ZERO
  constructor
  · intro h
    have hx : v.x = 0 := by nlinarith [sq_nonneg v.x, sq_nonneg v.y, sq_nonneg v.z]
    have hy : v.y = 0 := by nlinarith [sq_nonneg v.x, sq_nonneg v.y, sq_nonneg v.z]
    have hz : v.z = 0 := by nlinarith [sq_nonneg v.x, sq_nonneg v.y, sq_nonneg v.z]
    ext <;> simp [hx, hy, hz]
  · intro h
    rw [h]; ring

lemma norm_eq_sqrt_norm_squared (v : Vec3) : v.norm = Real.sqrt v.norm_squared := rfl

lemma norm_eq_zero_iff (v : Vec3) : v.norm = 0 ↔ v = ZERO := by
  rw [norm_eq_sqrt_norm_squared, Real.sqrt_eq_zero (norm_squared_nonneg v),
    norm_squared_eq_zero_iff]

lemma dot_neg_right (a b : Vec3) : a.dot (-b) = -(a.dot b) := by
  simp [dot]; ring

end Vec3

/-- Color is an alias for Vec3 (vec.rs). -/
abbrev Color := Vec3

/-- Ray from ray.rs. -/
structure Ray where
  origin : Vec3
  direction : Vec3

/-- Ray::at: `t * self.direction + self.origin`. -/
def Ray.at (r : Ray) (t : ℝ) : Vec3 := t • r.direction + r.origin

/-! ## rng.rs

The generator is a linear congruential generator with multiplier 8121,
increment 28411 and modulus 134456, kept in a global cell.  The state is
passed explicitly here. -/

/-- One step of the linear congruential generator:
`RNG_STATE = (RNG_A * RNG_STATE + RNG_C) % RNG_M`. -/
def rng_next (s : ℕ) : ℕ := (8121 * s + 28411) % 134456

/-- rand_f64 from rng.rs, with the generator state passed explicitly.
The source advances the state, sets `t = state / (RNG_M - 1)` and returns
`(t_max - t_min) * t + t_min * t`. -/
def rand_f64 (t_min t_max : ℝ) (s : ℕ) : ℝ :=
  let t : ℝ := (rng_next s : ℝ) / ((134456 - 1 : ℕ) : ℝ)
  (t_max - t_min) * t + t_min * t

/-- Claim C10: `rand_f64(t_min, t_max)` returns exactly `t_max * u` where `u`
is the next linear congruential draw scaled into `[0,1]`
(`state' = (8121*state + 28411) mod 134456`, `u = state'/134455`); the result
does not depend on `t_min`, so two calls from the same state with different
`t_min` but equal `t_max` return the same value. -/
theorem C10_rand_f64_ignores_t_min (t_min t_min' t_max : ℝ) (s : ℕ) :
    rand_f64 t_min t_max s = t_max * (((8121 * s + 28411) % 134456 : ℕ) : ℝ) / 134455
    ∧ rand_f64 t_min t_max s = rand_f64 t_min' t_max s := by
  unfold rand_f64 rng_next
  norm_num
  constructor
  · ring
  · ring

/-- Claim C8: the claim (a `rand_f64(t_min, t_max)` result always lies in
`[t_min, t_max]`) is what the spec demands, but the code computes
`(t_max - t_min)*t + t_min*t = t_max*t`, dropping the `t_min` offset: at
state 0 the draw is `u = 28411/134455 ≈ 0.211` and `rand_f64 2 3` returns
`3*u ≈ 0.634`, outside `[2, 3]`. -/
theorem C8_rand_f64_out_of_range :
    rand_f64 2 3 0 = 3 * (28411 / 134455) ∧ ¬ (2 ≤ rand_f64 2 3 0) := by
  unfold rand_f64 rng_next
  norm_num

/-! ## material.rs -/

/-- material.rs: the ambient medium refractive index (vacuum). -/
def VACUUM_REFRACTION : ℝ := 1.0

/-- Material from material.rs: a tagged union over the three material kinds.
The constructor name `Dialectric` keeps the source's spelling. -/
inductive Material where
  | Lambertian (albedo : Color)
  | Metal (albedo : Color) (fuzzyness : ℝ)
  | Dialectric (refraction_index : ℝ)

/-- reflect from material.rs: `v - 2*(v·normal)*normal`. -/
def reflect (v normal : Vec3) : Vec3 := v - (2 * v.dot normal) • normal

/-- refract from material.rs (class Snell refraction with the radicand
clamped to 0 before the square root). -/
def refract (v normal : Vec3) (refraction_ratio : ℝ) : Vec3 :=
  let cos_theta_1 := min (-(v.dot normal)) 1
  let cos_theta_2 :=
    Real.sqrt (max (1 - refraction_ratio * refraction_ratio * (1 - cos_theta_1 * cos_theta_1)) 0)
  refraction_ratio • v + (refraction_ratio * cos_theta_1 - cos_theta_2) • normal

/-- reflectance from material.rs (Schlick approximation).  The source's
`assert_ne!(refraction_ratio, -1.0)` panic is embedded as the `none`
branch. -/
def reflectance (cos_theta refraction_ratio : ℝ) : Option ℝ :=
  if refraction_ratio = -1 then none
  else
    let r0 := ((1 - refraction_ratio) / (1 + refraction_ratio)) *
      ((1 - refraction_ratio) / (1 + refraction_ratio))
    some (r0 + (1 - r0) * (1 - cos_theta) ^ (5 : ℕ))

/-- The Metal arm's scatter direction: reflect the (already normalized)
incoming direction `v` about the normal, perturb by
`min(fuzzyness, 1) * rand_unit`, oriented by the sign of its dot with the
normal. -/
def metal_direction (v reflection_normal : Vec3) (fuzzyness : ℝ) (rand_unit : Vec3) : Vec3 :=
  let reflection := reflect v reflection_normal
  let fuzzy_random_unit_vec := (min fuzzyness 1) • rand_unit
  if 0 < reflection_normal.dot fuzzy_random_unit_vec then reflection + fuzzy_random_unit_vec
  else reflection - fuzzy_random_unit_vec

/-- Material::scatter from material.rs.  The two random draws the source
takes from the global generator (`rand_unit_vec()` and `rand_f64(0.0, 1.0)`)
are passed as the explicit parameters `rand_unit` and `u01`; the unused
`source_material` parameter of the source is dropped.  A panic (the
`assert!` inside `to_unit_vec`, or the `assert_ne!` inside `reflectance`) is
the `Except.error` branch; `Except.ok none` is an absorbed ray. -/
def scatter (m : Material) (input_ray : Ray) (reflection_point reflection_normal : Vec3)
    (ray_is_inside : Bool) (rand_unit : Vec3) (u01 : ℝ) :
    Except Unit (Option (Ray × Color)) :=
  match m with
  | .Lambertian albedo =>
      let scatter_direction :=
        if 0 < reflection_normal.dot rand_unit then reflection_normal + rand_unit
        else reflection_normal - rand_unit
      let scatter_direction :=
        if scatter_direction.almost_zero then reflection_normal else scatter_direction
      .ok (some (⟨reflection_point, scatter_direction⟩, albedo))
  | .Metal albedo fuzzyness =>
      match input_ray.direction.to_unit_vec with
      | none => .error ()
      | some v =>
          let scatter_direction := metal_direction v reflection_normal fuzzyness rand_unit
          if 0 < scatter_direction.dot reflection_normal then
            .ok (some (⟨reflection_point, scatter_direction⟩, albedo))
          else .ok none
  | .Dialectric refraction_index =>
      let attenuation : Color := ⟨1, 1, 1⟩
      match input_ray.direction.to_unit_vec with
      | none => .error ()
      | some unit_direction =>
          let refraction_ratio :=
            if ray_is_inside then refraction_index / VACUUM_REFRACTION
            else VACUUM_REFRACTION / refraction_index
          let cos_theta := min (-(unit_direction.dot reflection_normal)) 1
          let sin_theta := Real.sqrt (1 - cos_theta * cos_theta)
          let cannot_refract := 1 < refraction_ratio * sin_theta
          match reflectance cos_theta refraction_ratio with
          | none => .error ()
          | some reflection_coefficient =>
              let should_reflect := cannot_refract ∨ u01 < reflection_coefficient
              let direction :=
                if should_reflect then reflect unit_direction reflection_normal
                else refract unit_direction reflection_normal refraction_ratio
              .ok (some (⟨reflection_point, direction⟩, attenuation))

/-! ## shape.rs -/

/-- Collision from shape.rs. -/
structure Collision where
  pos : Vec3
  normal : Vec3
  ray_is_inside : Bool
  t : ℝ
  material : Material

/-- Sphere from shape.rs. -/
structure Sphere where
  center : Vec3
  radius : ℝ
  material : Material

namespace Sphere

/-- `delta = ray.origin - self.center` in Sphere::collide. -/
def delta (s : Sphere) (ray : Ray) : Vec3 := ray.origin - s.center

/-- `a = ray.direction.norm_squared()` in Sphere::collide. -/
def qa (ray : Ray) : ℝ := ray.direction.norm_squared

/-- `half_b = delta.dot(ray.direction)` in Sphere::collide. -/
def half_b (s : Sphere) (ray : Ray) : ℝ := (s.delta ray).dot ray.direction

/-- `c = delta.norm_squared() - radius*radius` in Sphere::collide. -/
def qc (s : Sphere) (ray : Ray) : ℝ := (s.delta ray).norm_squared - s.radius * s.radius

/-- `discriminant = half_b*half_b - a*c` in Sphere::collide. -/
def discriminant (s : Sphere) (ray : Ray) : ℝ :=
  s.half_b ray * s.half_b ray - qa ray * s.qc ray

/-- The smaller quadratic root `(-half_b - sqrt(discriminant)) / a`. -/
def root1 (s : Sphere) (ray : Ray) : ℝ :=
  (-(s.half_b ray) - Real.sqrt (s.discriminant ray)) / qa ray

/-- The larger quadratic root `(-half_b + sqrt(discriminant)) / a`. -/
def root2 (s : Sphere) (ray : Ray) : ℝ :=
  (-(s.half_b ray) + Real.sqrt (s.discriminant ray)) / qa ray

/-- `outward_normal = (ray.at(root) - center) * (1/radius)` in
Sphere::collide. -/
def outward_normal (s : Sphere) (ray : Ray) (root : ℝ) : Vec3 :=
  (1 / s.radius) • (ray.at root - s.center)

/-- The Collision record Sphere::collide builds for an accepted root: the
outward normal is negated when `ray.direction.dot(outward_normal) >= 0`
(the ray is inside), so the reported normal opposes the ray. -/
def mk_collision (s : Sphere) (ray : Ray) (root : ℝ) : Collision :=
  let outward := s.outward_normal ray root
  let ray_is_inside_sphere : Bool := if 0 ≤ ray.direction.dot outward then true else false
  { pos := ray.at root
    normal := if ray_is_inside_sphere then -outward else outward
    ray_is_inside := ray_is_inside_sphere
    t := root
    material := s.material }

/-- Sphere::collide from shape.rs: no real root means no collision,
otherwise the smaller root is tested against `[t_min, t_max]`, the larger
root is the fallback, and both outside means no collision. -/
def collide (s : Sphere) (ray : Ray) (t_min t_max : ℝ) : Option Collision :=
  if s.discriminant ray < 0 then none
  else if s.root1 ray < t_min ∨ s.root1 ray > t_max then
    if s.root2 ray < t_min ∨ s.root2 ray > t_max then none
    else some (s.mk_collision ray (s.root2 ray))
  else some (s.mk_collision ray (s.root1 ray))

end Sphere

/-! ## camera.rs -/

/-- Camera from camera.rs. -/
structure Camera where
  origin : Vec3
  lower_left_corner : Vec3
  horizontal : Vec3
  vertical : Vec3
  u : Vec3
  v : Vec3
  w : Vec3
  lens_radius : ℝ

/-- Camera::send_ray_towards from camera.rs.  The source samples two uniform
draws, normalizes `(draw, draw, 0)` and scales it by `lens_radius`; the
normalized sampled vector is passed here as `random_xy_unit_vec`, so the
theorem quantifies over every lens-offset draw. -/
def Camera.send_ray_towards (cam : Camera) (x y : ℝ) (random_xy_unit_vec : Vec3) : Ray :=
  let random_direction := cam.lens_radius • random_xy_unit_vec
  let offset := random_direction.x • cam.u + random_direction.y • cam.v
  { origin := cam.origin + offset
    direction := cam.lower_left_corner + x • cam.horizontal + y • cam.vertical
      - (cam.origin + offset) }

/-! ## lib.rs -/

/-- f64::MAX as an exact real: `(2 - 2^(-52)) * 2^1023 = (2^53 - 1) * 2^971`. -/
def f64_MAX : ℝ := (2 ^ (53 : ℕ) - 1) * 2 ^ (971 : ℕ)

/-- The loop body of get_closest_collision from lib.rs: iterate the shapes,
keeping the smallest `t` seen so far as the shrinking upper bound of the
window. -/
def gcc_aux (ray : Ray) : List Sphere → ℝ → Option Collision → Option Collision
  | [], _, closest_collision => closest_collision
  | hit_able :: rest, closest, closest_collision =>
      match hit_able.collide ray 0.001 closest with
      | some collision => gcc_aux ray rest collision.t (some collision)
      | none => gcc_aux ray rest closest closest_collision

/-- get_closest_collision from lib.rs: start with `closest = f64::MAX` and no
collision. -/
def get_closest_collision (ray : Ray) (hit_ables : List Sphere) : Option Collision :=
  gcc_aux ray hit_ables f64_MAX none

/-- f64::clamp: `min` if below, `max` if above, the value otherwise. -/
def fClamp (v lo hi : ℝ) : ℝ := if v < lo then lo else if v > hi then hi else v

/-- get_ray_color from lib.rs.  The random draws consumed by `scatter` at
recursion depth `n` are supplied by `draws n`; a panic anywhere is the `none`
result, so the miss branch's `to_unit_vec` panic is also propagated. -/
def get_ray_color (draws : ℕ → Vec3 × ℝ) (world : List Sphere) : Ray → ℕ → Option Color
  | _, 0 => some ⟨0, 0, 0⟩
  | ray, Nat.succ max_depth =>
      match get_closest_collision ray world with
      | some collision =>
          match scatter collision.material ray collision.pos collision.normal
              collision.ray_is_inside (draws max_depth).1 (draws max_depth).2 with
          | .error _ => none
          | .ok none => some ⟨0, 0, 0⟩
          | .ok (some (scattered_ray, scattered_color)) =>
              Option.map (fun c => scattered_color * c)
                (get_ray_color draws world scattered_ray max_depth)
      | none =>
          Option.map (fun unit_direction =>
            let t := fClamp (0.5 * (unit_direction.y + 1)) 0 1
            (1 - t) • (⟨1, 1, 1⟩ : Vec3) + t • (⟨0.5, 0.7, 1.0⟩ : Vec3))
            ray.direction.to_unit_vec

/-! ## Helper lemmas about Sphere::collide -/

namespace Sphere

@[simp] lemma mk_collision_t (s : Sphere) (ray : Ray) (root : ℝ) :
    (s.mk_collision ray root).t = root := rfl

/-- The window test of the source, `root < t_min || root > t_max`, is the
negation of membership in the closed window. -/
lemma window_cond_iff (r a b : ℝ) : (r < a ∨ r > b) ↔ ¬(a ≤ r ∧ r ≤ b) := by
  rw [not_and_or, not_le, not_le]

/-- Normal form of Sphere::collide: the window tests rewritten as closed
interval membership. -/
lemma collide_eq (s : Sphere) (ray : Ray) (t_min t_max : ℝ) :
    s.collide ray t_min t_max =
      if s.discriminant ray < 0 then none
      else if t_min ≤ s.root1 ray ∧ s.root1 ray ≤ t_max then
        some (s.mk_collision ray (s.root1 ray))
      else if t_min ≤ s.root2 ray ∧ s.root2 ray ≤ t_max then
        some (s.mk_collision ray (s.root2 ray))
      else none := by
  unfold collide
  by_cases h0 : s.discriminant ray < 0
  · rw [if_pos h0, if_pos h0]
  · rw [if_neg h0, if_neg h0]
    by_cases h1 : t_min ≤ s.root1 ray ∧ s.root1 ray ≤ t_max
    · have hc1 : ¬(s.root1 ray < t_min ∨ s.root1 ray > t_max) := by
        rw [window_cond_iff]; exact not_not_intro h1
      rw [if_neg hc1, if_pos h1]
    · have hc1 : s.root1 ray < t_min ∨ s.root1 ray > t_max :=
        (window_cond_iff _ _ _).mpr h1
      rw [if_pos hc1, if_neg h1]
      by_cases h2 : t_min ≤ s.root2 ray ∧ s.root2 ray ≤ t_max
      · have hc2 : ¬(s.root2 ray < t_min ∨ s.root2 ray > t_max) := by
          rw [window_cond_iff]; exact not_not_intro h2
        rw [if_neg hc2, if_pos h2]
      · have hc2 : s.root2 ray < t_min ∨ s.root2 ray > t_max :=
          (window_cond_iff _ _ _).mpr h2
        rw [if_pos hc2, if_neg h2]

/-- Eliminator for a successful collide: the discriminant is nonnegative, the
returned `t` is in the window, and the collision is the record built from one
of the two roots. -/
lemma collide_some_cases {s : Sphere} {ray : Ray} {t_min t_max : ℝ} {col : Collision}
    (h : s.collide ray t_min t_max = some col) :
    0 ≤ s.discriminant ray ∧ t_min ≤ col.t ∧ col.t ≤ t_max ∧
      ((col = s.mk_collision ray (s.root1 ray) ∧ col.t = s.root1 ray)
        ∨ (col = s.mk_collision ray (s.root2 ray) ∧ col.t = s.root2 ray)) := by
  rw [collide_eq] at h
  split_ifs at h with h0 h1 h2
  · have hcol : col = s.mk_collision ray (s.root1 ray) := (Option.some.inj h).symm
    subst hcol
    exact ⟨not_lt.mp h0, by simpa using h1.1, by simpa using h1.2, Or.inl ⟨rfl, rfl⟩⟩
  · have hcol : col = s.mk_collision ray (s.root2 ray) := (Option.some.inj h).symm
    subst hcol
    exact ⟨not_lt.mp h0, by simpa using h2.1, by simpa using h2.2, Or.inr ⟨rfl, rfl⟩⟩

end Sphere

/-- Claim C1: Sphere::collide returns None when the discriminant is negative;
otherwise it tests the smaller root against the window `[t_min, t_max]`,
falls back to the larger root, returns None when both are outside, and every
returned collision carries `t` equal to the selected root with
`t_min ≤ t ≤ t_max` (boundaries inclusive, so a root exactly at `t_min` is
accepted). -/
theorem C1_collide_window (s : Sphere) (ray : Ray) (t_min t_max : ℝ) :
    (s.discriminant ray < 0 → s.collide ray t_min t_max = none)
    ∧ (0 ≤ s.discriminant ray →
        ((t_min ≤ s.root1 ray ∧ s.root1 ray ≤ t_max →
            s.collide ray t_min t_max = some (s.mk_collision ray (s.root1 ray)))
         ∧ (¬(t_min ≤ s.root1 ray ∧ s.root1 ray ≤ t_max) →
            ((t_min ≤ s.root2 ray ∧ s.root2 ray ≤ t_max →
                s.collide ray t_min t_max = some (s.mk_collision ray (s.root2 ray)))
             ∧ (¬(t_min ≤ s.root2 ray ∧ s.root2 ray ≤ t_max) →
                s.collide ray t_min t_max = none)))))
    ∧ (∀ col, s.collide ray t_min t_max = some col →
        (col.t = s.root1 ray ∨ col.t = s.root2 ray) ∧ t_min ≤ col.t ∧ col.t ≤ t_max) := by
  refine ⟨?_, ?_, ?_⟩
  · intro h
    rw [Sphere.collide_eq, if_pos h]
  · intro h
    refine ⟨?_, ?_⟩
    · intro h1
      rw [Sphere.collide_eq, if_neg (not_lt.mpr h), if_pos h1]
    · intro h1
      refine ⟨?_, ?_⟩
      · intro h2
        rw [Sphere.collide_eq, if_neg (not_lt.mpr h), if_neg h1, if_pos h2]
      · intro h2
        rw [Sphere.collide_eq, if_neg (not_lt.mpr h), if_neg h1, if_neg h2]
  · intro col hcol
    obtain ⟨-, ht1, ht2, hcase⟩ := Sphere.collide_some_cases hcol
    rcases hcase with ⟨-, ht⟩ | ⟨-, ht⟩
    · exact ⟨Or.inl ht, ht1, ht2⟩
    · exact ⟨Or.inr ht, ht1, ht2⟩

/-- A concrete unit sphere in front of the origin (the sphere of the source's
`test_ray_collides_sphere` test). -/
def demoSphere : Sphere := ⟨⟨0, 0, -2⟩, 1, .Dialectric 1⟩

/-- A ray from the origin straight towards demoSphere. -/
def demoRay : Ray := ⟨⟨0, 0, 0⟩, ⟨0, 0, -1⟩⟩

lemma demoSphere_discriminant : demoSphere.discriminant demoRay = 1 := by
  unfold Sphere.discriminant Sphere.half_b Sphere.qa Sphere.qc Sphere.delta demoSphere demoRay
  simp [Vec3.dot, Vec3.norm_squared]

lemma demoSphere_root1 : demoSphere.root1 demoRay = 1 := by
  unfold Sphere.root1 Sphere.qa
  rw [demoSphere_discriminant]
  unfold Sphere.half_b Sphere.delta demoSphere demoRay
  simp [Vec3.dot, Vec3.norm_squared, Real.sqrt_one]
  norm_num

/-- Witness for C1: on the concrete demo sphere and ray the discriminant is
`1 ≥ 0` and the smaller root `1` lies in the window `[0, 10]`, so collide
returns the collision built from the smaller root. -/
theorem C1_collide_window_witness :
    demoSphere.collide demoRay 0 10 = some (demoSphere.mk_collision demoRay (demoSphere.root1 demoRay)) := by
  refine ((C1_collide_window demoSphere demoRay 0 10).2.1 ?_).1 ?_
  · rw [demoSphere_discriminant]; norm_num
  · rw [demoSphere_root1]; norm_num

/-! ## Geometry of accepted roots (towards C2) -/

namespace Vec3

lemma norm_squared_smul (t : ℝ) (v : Vec3) : (t • v).norm_squared = t * t * v.norm_squared := by
  simp only [smul_def, norm_squared]; ring

lemma norm_squared_neg' (v : Vec3) : (-v).norm_squared = v.norm_squared := by
  simp only [neg_def, norm_squared]; ring

lemma norm_of_norm_squared_eq_one {v : Vec3} (h : v.norm_squared = 1) : v.norm = 1 := by
  rw [norm_eq_sqrt_norm_squared, h, Real.sqrt_one]

end Vec3

namespace Sphere

/-- The two candidate roots are ordered: the `-sqrt` one is the smaller. -/
lemma root1_le_root2 (s : Sphere) (ray : Ray) : s.root1 ray ≤ s.root2 ray := by
  have hs := Real.sqrt_nonneg (s.discriminant ray)
  have hq : (0 : ℝ) ≤ qa ray := Vec3.norm_squared_nonneg ray.direction
  rcases eq_or_lt_of_le hq with h | h
  · unfold root1 root2
    rw [← h]
    simp
  · unfold root1 root2
    rw [div_le_div_iff h h]
    nlinarith

/-- Each of the two candidate roots satisfies the intersection quadratic
`a·t² + 2·half_b·t + c = 0` (for a nondegenerate direction and a nonnegative
discriminant). -/
lemma root_quadratic (s : Sphere) (ray : Ray) (hd : 0 ≤ s.discriminant ray)
    (ha : qa ray ≠ 0) {r : ℝ} (hr : r = s.root1 ray ∨ r = s.root2 ray) :
    qa ray * (r * r) + 2 * s.half_b ray * r + s.qc ray = 0 := by
  have hsq : Real.sqrt (s.discriminant ray) * Real.sqrt (s.discriminant ray)
      = s.half_b ray * s.half_b ray - qa ray * s.qc ray := by
    rw [Real.mul_self_sqrt hd]
    rfl
  have key : qa ray * (qa ray * (r * r) + 2 * s.half_b ray * r + s.qc ray) = 0 := by
    have hqr : qa ray * r = -(s.half_b ray) +
        (if r = s.root1 ray then -1 else 1) * Real.sqrt (s.discriminant ray) := by
      rcases hr with h | h
      · rw [if_pos h, h]
        unfold root1
        field_simp
        ring
      · by_cases h1 : r = s.root1 ray
        · rw [if_pos h1, h1]
          unfold root1
          field_simp
          ring
        · rw [if_neg h1, h]
          unfold root2
          field_simp
    have expand : qa ray * (qa ray * (r * r) + 2 * s.half_b ray * r + s.qc ray)
        = (qa ray * r) * (qa ray * r) + 2 * s.half_b ray * (qa ray * r)
          + qa ray * s.qc ray := by ring
    rw [expand, hqr]
    by_cases h1 : r = s.root1 ray
    · rw [if_pos h1]
      linear_combination hsq
    · rw [if_neg h1]
      linear_combination hsq
  rcases mul_eq_zero.mp key with h | h
  · exact absurd h ha
  · exact h

/-- An accepted root's hit point lies exactly on the sphere surface,
`‖P - C‖² = r²`. -/
lemma norm_squared_at_root (s : Sphere) (ray : Ray) (hd : 0 ≤ s.discriminant ray)
    (ha : qa ray ≠ 0) {r : ℝ} (hr : r = s.root1 ray ∨ r = s.root2 ray) :
    (ray.at r - s.center).norm_squared = s.radius * s.radius := by
  have hq := s.root_quadratic ray hd ha hr
  unfold qa half_b qc delta at hq
  simp only [Vec3.dot, Vec3.norm_squared, Vec3.sub_def] at hq
  unfold Ray.at
  simp only [Vec3.norm_squared, Vec3.smul_def, Vec3.add_def, Vec3.sub_def]
  linear_combination hq

/-- The outward normal at an accepted root has squared norm 1 (radius ≠ 0,
of either sign, because the scaling is by 1/radius and the distance to the
center is |radius|). -/
lemma outward_normal_norm_squared (s : Sphere) (ray : Ray) (hd : 0 ≤ s.discriminant ray)
    (ha : qa ray ≠ 0) (hrad : s.radius ≠ 0) {r : ℝ}
    (hr : r = s.root1 ray ∨ r = s.root2 ray) :
    (s.outward_normal ray r).norm_squared = 1 := by
  unfold outward_normal
  rw [Vec3.norm_squared_smul, s.norm_squared_at_root ray hd ha hr]
  field_simp

lemma mk_collision_normal (s : Sphere) (ray : Ray) (r : ℝ) :
    (s.mk_collision ray r).normal =
      if 0 ≤ ray.direction.dot (s.outward_normal ray r) then -(s.outward_normal ray r)
      else s.outward_normal ray r := by
  unfold mk_collision
  by_cases h : 0 ≤ ray.direction.dot (s.outward_normal ray r) <;> simp [h]

lemma mk_collision_ray_is_inside (s : Sphere) (ray : Ray) (r : ℝ) :
    (s.mk_collision ray r).ray_is_inside = true
      ↔ 0 ≤ ray.direction.dot (s.outward_normal ray r) := by
  unfold mk_collision
  by_cases h : 0 ≤ ray.direction.dot (s.outward_normal ray r) <;> simp [h]

/-- Full description of the collision record built at an accepted root: unit
normal, normal opposing the ray, and the inside flag / negation condition. -/
lemma mk_collision_spec (s : Sphere) (ray : Ray) (hd : 0 ≤ s.discriminant ray)
    (ha : qa ray ≠ 0) (hrad : s.radius ≠ 0) {r : ℝ}
    (hr : r = s.root1 ray ∨ r = s.root2 ray) :
    (s.mk_collision ray r).normal.norm = 1
    ∧ ray.direction.dot (s.mk_collision ray r).normal ≤ 0
    ∧ ((s.mk_collision ray r).ray_is_inside = true
        ↔ 0 ≤ ray.direction.dot (s.outward_normal ray r))
    ∧ (s.mk_collision ray r).normal =
        (if 0 ≤ ray.direction.dot (s.outward_normal ray r) then -(s.outward_normal ray r)
         else s.outward_normal ray r) := by
  have hnsq := s.outward_normal_norm_squared ray hd ha hrad hr
  by_cases hio : 0 ≤ ray.direction.dot (s.outward_normal ray r)
  · refine ⟨?_, ?_, ?_, s.mk_collision_normal ray r⟩
    · rw [s.mk_collision_normal ray r, if_pos hio]
      exact Vec3.norm_of_norm_squared_eq_one (by rw [Vec3.norm_squared_neg']; exact hnsq)
    · rw [s.mk_collision_normal ray r, if_pos hio, Vec3.dot_neg_right]
      linarith
    · rw [s.mk_collision_ray_is_inside]
  · refine ⟨?_, ?_, ?_, s.mk_collision_normal ray r⟩
    · rw [s.mk_collision_normal ray r, if_neg hio]
      exact Vec3.norm_of_norm_squared_eq_one hnsq
    · rw [s.mk_collision_normal ray r, if_neg hio]
      exact le_of_lt (not_le.mp hio)
    · rw [s.mk_collision_ray_is_inside]

end Sphere

/-- Claim C2 (amended: the radius must also be nonzero): for every sphere with
nonzero radius (negative radius included) and every ray with nonzero
direction, a returned collision's normal has unit length and satisfies
`direction · normal ≤ 0`; the outward normal `(P-C)/radius` is negated
exactly when `direction · outward ≥ 0`, which is the condition reported as
`ray_is_inside`. -/
theorem C2_collide_normal (s : Sphere) (ray : Ray) (t_min t_max : ℝ) (col : Collision)
    (hrad : s.radius ≠ 0) (hdir : ray.direction ≠ Vec3.ZERO)
    (h : s.collide ray t_min t_max = some col) :
    col.normal.norm = 1
    ∧ ray.direction.dot col.normal ≤ 0
    ∧ (col.ray_is_inside = true ↔ 0 ≤ ray.direction.dot (s.outward_normal ray col.t))
    ∧ col.normal = (if 0 ≤ ray.direction.dot (s.outward_normal ray col.t)
        then -(s.outward_normal ray col.t) else s.outward_normal ray col.t) := by
  obtain ⟨hd, -, -, hcase⟩ := Sphere.collide_some_cases h
  have ha : Sphere.qa ray ≠ 0 := by
    unfold Sphere.qa
    intro h0
    exact hdir ((Vec3.norm_squared_eq_zero_iff _).mp h0)
  rcases hcase with ⟨hc, -⟩ | ⟨hc, -⟩
  · subst hc
    simpa using Sphere.mk_collision_spec s ray hd ha hrad (Or.inl rfl)
  · subst hc
    simpa using Sphere.mk_collision_spec s ray hd ha hrad (Or.inr rfl)

/-- Shared evaluation: collide on the demo sphere/ray accepts the smaller
root. -/
lemma demo_collide :
    demoSphere.collide demoRay 0 10
      = some (demoSphere.mk_collision demoRay (demoSphere.root1 demoRay)) := by
  have h0 : ¬ demoSphere.discriminant demoRay < 0 := by
    rw [demoSphere_discriminant]; norm_num
  have h1 : (0:ℝ) ≤ demoSphere.root1 demoRay ∧ demoSphere.root1 demoRay ≤ 10 := by
    rw [demoSphere_root1]; constructor <;> norm_num
  rw [Sphere.collide_eq, if_neg h0, if_pos h1]

/-- Witness for C2: on the concrete demo sphere (radius 1) and demo ray the
returned normal is unit length and opposes the ray. -/
theorem C2_collide_normal_witness :
    (demoSphere.mk_collision demoRay (demoSphere.root1 demoRay)).normal.norm = 1
    ∧ demoRay.direction.dot
        (demoSphere.mk_collision demoRay (demoSphere.root1 demoRay)).normal ≤ 0 := by
  have h := C2_collide_normal demoSphere demoRay 0 10
      (demoSphere.mk_collision demoRay (demoSphere.root1 demoRay))
      (by norm_num [demoSphere]) (by simp [demoRay, Vec3.ZERO]) demo_collide
  exact ⟨h.1, h.2.1⟩

/-- A degenerate sphere of radius 0. -/
def zeroSphere : Sphere := ⟨⟨2, 0, 0⟩, 0, .Lambertian ⟨0, 0, 0⟩⟩

/-- A ray along the positive x axis (nonzero direction). -/
def xRay : Ray := ⟨⟨0, 0, 0⟩, ⟨1, 0, 0⟩⟩

lemma zeroSphere_discriminant : zeroSphere.discriminant xRay = 0 := by
  unfold Sphere.discriminant Sphere.half_b Sphere.qa Sphere.qc Sphere.delta zeroSphere xRay
  simp [Vec3.dot, Vec3.norm_squared]

lemma zeroSphere_root1 : zeroSphere.root1 xRay = 2 := by
  unfold Sphere.root1 Sphere.qa
  rw [zeroSphere_discriminant]
  unfold Sphere.half_b Sphere.delta zeroSphere xRay
  simp [Vec3.dot, Vec3.norm_squared, Real.sqrt_zero]

/-- Counterexample to C2 as frozen: the claim quantifies over every sphere,
but on the radius-0 sphere collide returns a collision (the ray direction is
nonzero) whose normal has norm 0, not unit length. -/
theorem C2_collide_normal_counterexample :
    xRay.direction ≠ Vec3.ZERO
    ∧ zeroSphere.collide xRay 0 10
        = some (zeroSphere.mk_collision xRay (zeroSphere.root1 xRay))
    ∧ (zeroSphere.mk_collision xRay (zeroSphere.root1 xRay)).normal.norm = 0
    ∧ ¬ (zeroSphere.mk_collision xRay (zeroSphere.root1 xRay)).normal.norm = 1 := by
  have hnormal : (zeroSphere.mk_collision xRay (zeroSphere.root1 xRay)).normal.norm = 0 := by
    rw [Sphere.mk_collision_normal, zeroSphere_root1]
    unfold Sphere.outward_normal Ray.at zeroSphere xRay Vec3.norm
    norm_num [Vec3.dot]
  refine ⟨by simp [xRay, Vec3.ZERO], ?_, hnormal, by rw [hnormal]; norm_num⟩
  have h0 : ¬ zeroSphere.discriminant xRay < 0 := by
    rw [zeroSphere_discriminant]; norm_num
  have h1 : (0:ℝ) ≤ zeroSphere.root1 xRay ∧ zeroSphere.root1 xRay ≤ 10 := by
    rw [zeroSphere_root1]; constructor <;> norm_num
  rw [Sphere.collide_eq, if_neg h0, if_pos h1]

/-! ## The shrinking-window property of collide (towards C3) -/

/-- Shrinking the upper bound of the window acts as a filter: collide with
upper bound `t1 ≤ t2` succeeds with collision `col` exactly when collide with
upper bound `t2` returns the same `col` and `col.t ≤ t1`. -/
lemma Sphere.collide_shrink (s : Sphere) (ray : Ray) (t_min t1 t2 : ℝ) (h12 : t1 ≤ t2)
    (col : Collision) :
    s.collide ray t_min t1 = some col
      ↔ (s.collide ray t_min t2 = some col ∧ col.t ≤ t1) := by
  by_cases h0 : s.discriminant ray < 0
  · rw [Sphere.collide_eq, Sphere.collide_eq, if_pos h0, if_pos h0]
    simp
  · have hr12 := Sphere.root1_le_root2 s ray
    rw [Sphere.collide_eq, Sphere.collide_eq, if_neg h0, if_neg h0]
    by_cases hA : t_min ≤ s.root1 ray ∧ s.root1 ray ≤ t1
    · have hA2 : t_min ≤ s.root1 ray ∧ s.root1 ray ≤ t2 := ⟨hA.1, le_trans hA.2 h12⟩
      rw [if_pos hA, if_pos hA2]
      constructor
      · intro h
        refine ⟨h, ?_⟩
        have hcol : col = s.mk_collision ray (s.root1 ray) := (Option.some.inj h).symm
        rw [hcol, Sphere.mk_collision_t]
        exact hA.2
      · exact fun h => h.1
    · rw [if_neg hA]
      by_cases hB : t_min ≤ s.root2 ray ∧ s.root2 ray ≤ t1
      · have hr1 : ¬ t_min ≤ s.root1 ray := by
          by_contra hc
          have h1 : t1 < s.root1 ray := by
            rcases not_and_or.mp hA with h | h
            · exact absurd hc h
            · exact not_le.mp h
          linarith [hB.2]
        have hA2 : ¬ (t_min ≤ s.root1 ray ∧ s.root1 ray ≤ t2) := fun hc => hr1 hc.1
        have hB2 : t_min ≤ s.root2 ray ∧ s.root2 ray ≤ t2 := ⟨hB.1, le_trans hB.2 h12⟩
        rw [if_pos hB, if_neg hA2, if_pos hB2]
        constructor
        · intro h
          refine ⟨h, ?_⟩
          have hcol : col = s.mk_collision ray (s.root2 ray) := (Option.some.inj h).symm
          rw [hcol, Sphere.mk_collision_t]
          exact hB.2
        · exact fun h => h.1
      · rw [if_neg hB]
        constructor
        · intro h
          exact Option.noConfusion h
        · rintro ⟨h, hle⟩
          exfalso
          by_cases hA2 : t_min ≤ s.root1 ray ∧ s.root1 ray ≤ t2
          · rw [if_pos hA2] at h
            have hcol : col = s.mk_collision ray (s.root1 ray) := (Option.some.inj h).symm
            rw [hcol, Sphere.mk_collision_t] at hle
            exact hA ⟨hA2.1, hle⟩
          · rw [if_neg hA2] at h
            by_cases hB2 : t_min ≤ s.root2 ray ∧ s.root2 ray ≤ t2
            · rw [if_pos hB2] at h
              have hcol : col = s.mk_collision ray (s.root2 ray) := (Option.some.inj h).symm
              rw [hcol, Sphere.mk_collision_t] at hle
              exact hB ⟨hB2.1, hle⟩
            · rw [if_neg hB2] at h
              exact Option.noConfusion h

/-- Loop invariant of get_closest_collision: with an accumulator whose `t`
equals the current window bound (or no accumulator and the initial bound
`f64::MAX`), the loop returns None exactly when nothing was ever found, and
any returned collision is (the accumulator or) some shape's full-window
collision of globally minimal `t`. -/
lemma gcc_aux_spec (ray : Ray) (l : List Sphere) :
    ∀ (closest : ℝ) (acc : Option Collision),
      closest ≤ f64_MAX →
      (acc = none → closest = f64_MAX) →
      (∀ c, acc = some c → closest = c.t) →
      ((gcc_aux ray l closest acc = none
          ↔ acc = none ∧ ∀ s ∈ l, s.collide ray 0.001 f64_MAX = none)
       ∧ (∀ c, gcc_aux ray l closest acc = some c →
            (acc = some c ∨ ∃ s ∈ l, s.collide ray 0.001 f64_MAX = some c)
            ∧ (∀ c0, acc = some c0 → c.t ≤ c0.t)
            ∧ (∀ s ∈ l, ∀ c', s.collide ray 0.001 f64_MAX = some c' → c.t ≤ c'.t))) := by
  induction l with
  | nil =>
      intro closest acc hcl hnone hsome
      constructor
      · simp [gcc_aux]
      · intro c hc
        simp only [gcc_aux] at hc
        refine ⟨Or.inl hc, ?_, by simp⟩
        intro c0 hc0
        rw [hc0] at hc
        rw [Option.some.inj hc]
  | cons s rest ih =>
      intro closest acc hcl hnone hsome
      cases hcol : s.collide ray 0.001 closest with
      | some c1 =>
          obtain ⟨hc1M, hc1le⟩ :=
            (Sphere.collide_shrink s ray 0.001 closest f64_MAX hcl c1).mp hcol
          have hc1max : c1.t ≤ f64_MAX := le_trans hc1le hcl
          have ih' := ih c1.t (some c1) hc1max (fun h => Option.noConfusion h)
            (fun c hc => by rw [Option.some.inj hc])
          have hstep : gcc_aux ray (s :: rest) closest acc = gcc_aux ray rest c1.t (some c1) := by
            simp [gcc_aux, hcol]
          rw [hstep]
          constructor
          · rw [ih'.1]
            constructor
            · rintro ⟨h, -⟩
              exact Option.noConfusion h
            · rintro ⟨-, hall⟩
              have h := hall s (List.mem_cons_self s rest)
              rw [hc1M] at h
              exact Option.noConfusion h
          · intro c hc
            obtain ⟨hmem, hacc', hrest⟩ := ih'.2 c hc
            have hct : c.t ≤ c1.t := hacc' c1 rfl
            refine ⟨?_, ?_, ?_⟩
            · rcases hmem with h | ⟨s', hs', h⟩
              · refine Or.inr ⟨s, List.mem_cons_self s rest, ?_⟩
                rw [← Option.some.inj h]
                exact hc1M
              · exact Or.inr ⟨s', List.mem_cons_of_mem s hs', h⟩
            · intro c0 hc0
              have hcl0 := hsome c0 hc0
              linarith
            · intro s' hs' c' hcand
              rcases List.mem_cons.mp hs' with rfl | hs'
              · rw [hc1M] at hcand
                rw [← Option.some.inj hcand]
                exact hct
              · exact hrest s' hs' c' hcand
      | none =>
          have hnot : ∀ c', s.collide ray 0.001 f64_MAX = some c' → closest < c'.t := by
            intro c' h'
            by_contra hle
            push_neg at hle
            have h2 := (Sphere.collide_shrink s ray 0.001 closest f64_MAX hcl c').mpr ⟨h', hle⟩
            rw [hcol] at h2
            exact Option.noConfusion h2
          have hstep : gcc_aux ray (s :: rest) closest acc = gcc_aux ray rest closest acc := by
            simp [gcc_aux, hcol]
          rw [hstep]
          have ih' := ih closest acc hcl hnone hsome
          constructor
          · rw [ih'.1]
            constructor
            · rintro ⟨ha, hall⟩
              refine ⟨ha, ?_⟩
              intro s' hs'
              rcases List.mem_cons.mp hs' with rfl | hs'
              · cases hM : s'.collide ray 0.001 f64_MAX with
                | none => rfl
                | some c' =>
                    have hgt := hnot c' hM
                    have hle := (Sphere.collide_some_cases hM).2.2.1
                    rw [hnone ha] at hgt
                    linarith
              · exact hall s' hs'
            · rintro ⟨ha, hall⟩
              exact ⟨ha, fun s' hs' => hall s' (List.mem_cons_of_mem s hs')⟩
          · intro c hc
            obtain ⟨hmem, hacc', hrest⟩ := ih'.2 c hc
            refine ⟨?_, hacc', ?_⟩
            · rcases hmem with h | ⟨s', hs', h⟩
              · exact Or.inl h
              · exact Or.inr ⟨s', List.mem_cons_of_mem s hs', h⟩
            · intro s' hs' c' hcand
              rcases List.mem_cons.mp hs' with rfl | hs'
              · have hgt := hnot c' hcand
                cases hacc : acc with
                | none =>
                    have hle := (Sphere.collide_some_cases hcand).2.2.1
                    rw [hnone hacc] at hgt
                    linarith
                | some c0 =>
                    have h1 := hsome c0 hacc
                    have h2 := hacc' c0 hacc
                    linarith
              · exact hrest s' hs' c' hcand

/-- Claim C3: get_closest_collision returns None exactly when no shape has an
accepted root in the full window `[0.001, f64::MAX]`, and any returned
collision is some shape's full-window collision whose `t` is the global
minimum over all shapes' accepted roots — not merely a locally nearest
hit. -/
theorem C3_get_closest_collision_min (ray : Ray) (shapes : List Sphere) :
    (get_closest_collision ray shapes = none
       ↔ ∀ s ∈ shapes, s.collide ray 0.001 f64_MAX = none)
    ∧ (∀ c, get_closest_collision ray shapes = some c →
         (∃ s ∈ shapes, s.collide ray 0.001 f64_MAX = some c)
         ∧ ∀ s ∈ shapes, ∀ c', s.collide ray 0.001 f64_MAX = some c' → c.t ≤ c'.t) := by
  have h := gcc_aux_spec ray shapes f64_MAX none le_rfl (fun _ => rfl)
    (fun c hc => Option.noConfusion hc)
  constructor
  · rw [get_closest_collision, h.1]
    simp
  · intro c hc
    obtain ⟨hmem, -, hmin⟩ := h.2 c hc
    rcases hmem with h' | h'
    · exact Option.noConfusion h'
    · exact ⟨h', hmin⟩

/-- A second sphere further down the axis than demoSphere. -/
def farSphere : Sphere := ⟨⟨0, 0, -10⟩, 1, .Lambertian ⟨1, 1, 1⟩⟩

lemma farSphere_discriminant : farSphere.discriminant demoRay = 1 := by
  unfold Sphere.discriminant Sphere.half_b Sphere.qa Sphere.qc Sphere.delta farSphere demoRay
  simp [Vec3.dot, Vec3.norm_squared]

lemma farSphere_root1 : farSphere.root1 demoRay = 9 := by
  unfold Sphere.root1 Sphere.qa
  rw [farSphere_discriminant]
  unfold Sphere.half_b Sphere.delta farSphere demoRay
  simp [Vec3.dot, Vec3.norm_squared, Real.sqrt_one]
  norm_num

lemma far_collide_wide :
    farSphere.collide demoRay 0.001 f64_MAX
      = some (farSphere.mk_collision demoRay (farSphere.root1 demoRay)) := by
  have h0 : ¬ farSphere.discriminant demoRay < 0 := by
    rw [farSphere_discriminant]; norm_num
  have h1 : (0.001:ℝ) ≤ farSphere.root1 demoRay ∧ farSphere.root1 demoRay ≤ f64_MAX := by
    rw [farSphere_root1]
    constructor
    · norm_num
    · unfold f64_MAX; norm_num
  rw [Sphere.collide_eq, if_neg h0, if_pos h1]

lemma demo_collide_nine :
    demoSphere.collide demoRay 0.001 9
      = some (demoSphere.mk_collision demoRay (demoSphere.root1 demoRay)) := by
  have h0 : ¬ demoSphere.discriminant demoRay < 0 := by
    rw [demoSphere_discriminant]; norm_num
  have h1 : (0.001:ℝ) ≤ demoSphere.root1 demoRay ∧ demoSphere.root1 demoRay ≤ 9 := by
    rw [demoSphere_root1]
    constructor <;> norm_num
  rw [Sphere.collide_eq, if_neg h0, if_pos h1]

/-- Shared evaluation: on the two-sphere scene the loop first records the far
hit at `t = 9`, then replaces it by the near hit at `t = 1`. -/
lemma gcc_demo_scene :
    get_closest_collision demoRay [farSphere, demoSphere]
      = some (demoSphere.mk_collision demoRay (demoSphere.root1 demoRay)) := by
  have hfar_t : (farSphere.mk_collision demoRay (farSphere.root1 demoRay)).t = 9 := by
    rw [Sphere.mk_collision_t, farSphere_root1]
  rw [get_closest_collision]
  simp only [gcc_aux, far_collide_wide, hfar_t, demo_collide_nine]

/-- Witness for C3: in the concrete two-sphere scene, the collision the loop
returns is at least as close as the far sphere's own accepted collision. -/
theorem C3_get_closest_collision_min_witness :
    (demoSphere.mk_collision demoRay (demoSphere.root1 demoRay)).t
      ≤ (farSphere.mk_collision demoRay (farSphere.root1 demoRay)).t := by
  have h := (C3_get_closest_collision_min demoRay [farSphere, demoSphere]).2
    (demoSphere.mk_collision demoRay (demoSphere.root1 demoRay)) gcc_demo_scene
  exact h.2 farSphere (by simp) _ far_collide_wide

/-- Claim C4: for positive depth and a nonzero-direction ray that hits no
shape, get_ray_color returns the background gradient
`(1-t)*(1,1,1) + t*(0.5,0.7,1.0)` with
`t = clamp(0.5*(unit_direction.y + 1), 0, 1)`. -/
theorem C4_background_gradient (draws : ℕ → Vec3 × ℝ) (world : List Sphere) (ray : Ray)
    (n : ℕ) (hn : 0 < n) (hdir : ray.direction ≠ Vec3.ZERO)
    (hmiss : get_closest_collision ray world = none) :
    ∃ u, ray.direction.to_unit_vec = some u ∧
      get_ray_color draws world ray n =
        some ((1 - fClamp (0.5 * (u.y + 1)) 0 1) • (⟨1, 1, 1⟩ : Vec3)
          + fClamp (0.5 * (u.y + 1)) 0 1 • (⟨0.5, 0.7, 1.0⟩ : Vec3)) := by
  obtain ⟨m, rfl⟩ := Nat.exists_eq_succ_of_ne_zero (Nat.pos_iff_ne_zero.mp hn)
  have hnorm : ray.direction.norm ≠ 0 := fun h => hdir ((Vec3.norm_eq_zero_iff _).mp h)
  refine ⟨(1 / ray.direction.norm) • ray.direction, ?_, ?_⟩
  · rw [Vec3.to_unit_vec, if_neg hnorm]
  · simp only [get_ray_color, hmiss, Vec3.to_unit_vec, if_neg hnorm, Option.map_some']

/-- A ray pointing straight up. -/
def upRay : Ray := ⟨⟨0, 0, 0⟩, ⟨0, 1, 0⟩⟩

/-- A trivial stream of random draws. -/
def demoDraws : ℕ → Vec3 × ℝ := fun _ => (Vec3.ZERO, 0)

/-- Witness for C4: on the empty scene a ray pointing straight up yields
exactly the sky color `(0.5, 0.7, 1.0)`. -/
theorem C4_background_gradient_witness :
    get_ray_color demoDraws [] upRay 1 = some ⟨0.5, 0.7, 1.0⟩ := by
  obtain ⟨u, hu, hc⟩ := C4_background_gradient demoDraws [] upRay 1 (by norm_num)
    (by simp [upRay, Vec3.ZERO]) rfl
  have hnorm : upRay.direction.norm = 1 := by
    unfold upRay Vec3.norm
    norm_num
  have hu' : u = ⟨0, 1, 0⟩ := by
    rw [Vec3.to_unit_vec, if_neg (by rw [hnorm]; norm_num), hnorm] at hu
    have h2 := Option.some.inj hu
    rw [← h2]
    unfold upRay
    simp
  rw [hc, hu']
  norm_num [fClamp, Vec3.smul_def, Vec3.add_def]

/-! ## Scatter arm lemmas -/

/-- The Lambertian arm always scatters: some direction, attenuation = albedo. -/
lemma lambertian_scatter_eq (albedo : Color) (input_ray : Ray) (p nrm : Vec3)
    (i : Bool) (ru : Vec3) (u : ℝ) :
    ∃ d, scatter (.Lambertian albedo) input_ray p nrm i ru u = .ok (some (⟨p, d⟩, albedo)) := by
  simp only [scatter]
  exact ⟨_, rfl⟩

/-- The Dialectric arm scatters with attenuation `(1,1,1)` whenever the
direction normalizes and the refraction ratio avoids the `-1` assert. -/
lemma dialectric_scatter_eq (ri : ℝ) (input_ray : Ray) (p nrm : Vec3) (i : Bool)
    (ru : Vec3) (u : ℝ) (ud : Vec3) (htu : input_ray.direction.to_unit_vec = some ud)
    (hne : (if i = true then ri / VACUUM_REFRACTION else VACUUM_REFRACTION / ri) ≠ -1) :
    ∃ d, scatter (.Dialectric ri) input_ray p nrm i ru u
      = .ok (some (⟨p, d⟩, ⟨1, 1, 1⟩)) := by
  simp only [scatter, htu, reflectance, if_neg hne]
  exact ⟨_, rfl⟩

/-- The Dialectric arm never reports absorption. -/
lemma dialectric_scatter_ne_ok_none (ri : ℝ) (input_ray : Ray) (p nrm : Vec3) (i : Bool)
    (ru : Vec3) (u : ℝ) :
    scatter (.Dialectric ri) input_ray p nrm i ru u ≠ .ok none := by
  simp only [scatter]
  cases htu : input_ray.direction.to_unit_vec with
  | none => simp
  | some ud =>
      by_cases hne : (if i = true then ri / VACUUM_REFRACTION else VACUUM_REFRACTION / ri) = -1
      · simp [reflectance, hne]
      · simp [reflectance, hne]

/-- Claim C5: for a Metal material the path is absorbed exactly when the
perturbed reflected direction's dot with the hit normal is non-positive,
otherwise the scattered ray has attenuation equal to the albedo — and Metal
is the only material kind that ever declines to scatter. -/
theorem C5_metal_scatter (albedo : Color) (fuzzyness : ℝ) (input_ray : Ray)
    (reflection_point reflection_normal : Vec3) (ray_is_inside : Bool)
    (rand_unit : Vec3) (u01 : ℝ) (hdir : input_ray.direction ≠ Vec3.ZERO) :
    (∃ v, input_ray.direction.to_unit_vec = some v
      ∧ (scatter (.Metal albedo fuzzyness) input_ray reflection_point reflection_normal
            ray_is_inside rand_unit u01 = .ok none
          ↔ (metal_direction v reflection_normal fuzzyness rand_unit).dot reflection_normal ≤ 0)
      ∧ (0 < (metal_direction v reflection_normal fuzzyness rand_unit).dot reflection_normal →
          scatter (.Metal albedo fuzzyness) input_ray reflection_point reflection_normal
              ray_is_inside rand_unit u01
            = .ok (some (⟨reflection_point,
                metal_direction v reflection_normal fuzzyness rand_unit⟩, albedo))))
    ∧ (∀ (m : Material) (r : Ray) (p nrm : Vec3) (i : Bool) (ru : Vec3) (u : ℝ),
        scatter m r p nrm i ru u = .ok none → ∃ al fz, m = Material.Metal al fz) := by
  have hnorm : input_ray.direction.norm ≠ 0 :=
    fun h => hdir ((Vec3.norm_eq_zero_iff _).mp h)
  constructor
  · refine ⟨(1 / input_ray.direction.norm) • input_ray.direction, ?_, ?_, ?_⟩
    · rw [Vec3.to_unit_vec, if_neg hnorm]
    · simp only [scatter, Vec3.to_unit_vec, if_neg hnorm]
      by_cases hpos : 0 < (metal_direction ((1 / input_ray.direction.norm) • input_ray.direction)
          reflection_normal fuzzyness rand_unit).dot reflection_normal
      · rw [if_pos hpos]
        constructor
        · intro h
          exact absurd (Except.ok.inj h) (fun hc => Option.noConfusion hc)
        · intro hle
          linarith
      · rw [if_neg hpos]
        exact iff_of_true rfl (not_lt.mp hpos)
    · intro hpos
      simp only [scatter, Vec3.to_unit_vec, if_neg hnorm]
      rw [if_pos hpos]
  · intro m r p nrm i ru u h
    cases m with
    | Lambertian al =>
        obtain ⟨d, hd⟩ := lambertian_scatter_eq al r p nrm i ru u
        rw [hd] at h
        exact absurd (Except.ok.inj h) (fun hc => Option.noConfusion hc)
    | Metal al fz => exact ⟨al, fz, rfl⟩
    | Dialectric ri => exact absurd h (dialectric_scatter_ne_ok_none ri r p nrm i ru u)

/-- A ray heading straight at a z-facing surface. -/
def metalRay : Ray := ⟨⟨0, 0, 0⟩, ⟨0, 0, -1⟩⟩

/-- Witness for C5: a fuzziness-0 metal facing the ray scatters (the
reflected direction `(0,0,1)` has positive dot with the normal) with
attenuation equal to the albedo. -/
theorem C5_metal_scatter_witness :
    scatter (.Metal ⟨1, 0, 0⟩ 0) metalRay ⟨0, 0, -1⟩ ⟨0, 0, 1⟩ false Vec3.ZERO 0
      = .ok (some (⟨⟨0, 0, -1⟩, ⟨0, 0, 1⟩⟩, ⟨1, 0, 0⟩)) := by
  obtain ⟨⟨v, hv, -, himp⟩, -⟩ := C5_metal_scatter ⟨1, 0, 0⟩ 0 metalRay ⟨0, 0, -1⟩ ⟨0, 0, 1⟩
    false Vec3.ZERO 0 (by simp [metalRay, Vec3.ZERO])
  have hnorm : metalRay.direction.norm = 1 := by
    unfold metalRay Vec3.norm
    norm_num
  have hv' : v = ⟨0, 0, -1⟩ := by
    rw [Vec3.to_unit_vec, if_neg (by rw [hnorm]; norm_num), hnorm] at hv
    have h2 := Option.some.inj hv
    rw [← h2]
    unfold metalRay
    simp
  have hmd : metal_direction v ⟨0, 0, 1⟩ 0 Vec3.ZERO = ⟨0, 0, 1⟩ := by
    rw [hv']
    unfold metal_direction reflect Vec3.ZERO
    norm_num [Vec3.dot]
  have hpos : 0 < (metal_direction v ⟨0, 0, 1⟩ 0 Vec3.ZERO).dot ⟨0, 0, 1⟩ := by
    rw [hmd]
    norm_num [Vec3.dot]
  have h := himp hpos
  rw [hmd] at h
  exact h

/-- The refraction ratio the Dialectric arm selects avoids the `-1` assert of
reflectance whenever the refraction index itself is not `-1`. -/
lemma ratio_ne_neg_one (ri : ℝ) (i : Bool) (hri : ri ≠ -1) :
    (if i = true then ri / VACUUM_REFRACTION else VACUUM_REFRACTION / ri) ≠ -1 := by
  cases i with
  | true =>
      rw [if_pos rfl]
      intro hc
      rw [VACUUM_REFRACTION] at hc
      norm_num at hc
      exact hri hc
  | false =>
      rw [if_neg (by simp)]
      intro hc
      rw [VACUUM_REFRACTION] at hc
      norm_num at hc
      have hri0 : ri ≠ 0 := by
        intro h0
        rw [h0] at hc
        norm_num at hc
      field_simp at hc
      exact hri (by linarith)

/-- Counterexample to C6 as frozen: a Dialectric with refraction index `-1`
panics in reflectance's `assert_ne!` (embedded error) instead of returning a
scattered ray, even though the input ray direction is nonzero. -/
theorem C6_always_scatter_counterexample :
    metalRay.direction ≠ Vec3.ZERO
    ∧ scatter (.Dialectric (-1)) metalRay ⟨0, 0, -1⟩ ⟨0, 0, 1⟩ true Vec3.ZERO 0
        = .error () := by
  refine ⟨by simp [metalRay, Vec3.ZERO], ?_⟩
  have hnz : metalRay.direction.norm ≠ 0 := by
    unfold metalRay Vec3.norm
    norm_num
  simp only [scatter, Vec3.to_unit_vec, if_neg hnz]
  norm_num [reflectance, VACUUM_REFRACTION]

/-- Claim C6 (amended: the Dialectric statement additionally needs
`refraction_index ≠ -1`, where the source's reflectance assert panics): for
every input ray with nonzero direction, hit point, normal, inside flag and
random draw, Lambertian scatter always returns Some with attenuation equal to
the albedo, and Dialectric scatter with `refraction_index ≠ -1` always
returns Some with attenuation exactly `(1,1,1)`. -/
theorem C6_always_scatter :
    (∀ (albedo : Color) (input_ray : Ray) (p nrm : Vec3) (i : Bool) (ru : Vec3) (u : ℝ),
       ∃ d, scatter (.Lambertian albedo) input_ray p nrm i ru u = .ok (some (⟨p, d⟩, albedo)))
    ∧ (∀ (ri : ℝ) (input_ray : Ray) (p nrm : Vec3) (i : Bool) (ru : Vec3) (u : ℝ),
        input_ray.direction ≠ Vec3.ZERO → ri ≠ -1 →
        ∃ d, scatter (.Dialectric ri) input_ray p nrm i ru u
          = .ok (some (⟨p, d⟩, ⟨1, 1, 1⟩))) := by
  constructor
  · exact lambertian_scatter_eq
  · intro ri r p nrm i ru u hdir hri
    have hnorm : r.direction.norm ≠ 0 := fun h => hdir ((Vec3.norm_eq_zero_iff _).mp h)
    have htu : r.direction.to_unit_vec = some ((1 / r.direction.norm) • r.direction) := by
      rw [Vec3.to_unit_vec, if_neg hnorm]
    exact dialectric_scatter_eq ri r p nrm i ru u _ htu (ratio_ne_neg_one ri i hri)

/-- Witness for C6: a Lambertian and a glass-like Dialectric (index 1.52)
both scatter on a concrete hit. -/
theorem C6_always_scatter_witness :
    (∃ d, scatter (.Lambertian ⟨1, 0, 0⟩) metalRay ⟨0, 0, -1⟩ ⟨0, 0, 1⟩ false Vec3.ZERO 0
        = .ok (some (⟨⟨0, 0, -1⟩, d⟩, ⟨1, 0, 0⟩)))
    ∧ (∃ d, scatter (.Dialectric 1.52) metalRay ⟨0, 0, -1⟩ ⟨0, 0, 1⟩ false Vec3.ZERO 0
        = .ok (some (⟨⟨0, 0, -1⟩, d⟩, ⟨1, 1, 1⟩))) := by
  constructor
  · exact C6_always_scatter.1 ⟨1, 0, 0⟩ metalRay ⟨0, 0, -1⟩ ⟨0, 0, 1⟩ false Vec3.ZERO 0
  · exact C6_always_scatter.2 1.52 metalRay ⟨0, 0, -1⟩ ⟨0, 0, 1⟩ false Vec3.ZERO 0
      (by simp [metalRay, Vec3.ZERO]) (by norm_num)

/-- The zero-direction ray. -/
def zeroRay : Ray := ⟨⟨0, 0, 0⟩, ⟨0, 0, 0⟩⟩

/-- Counterexample to C7 as frozen: on a zero input-ray direction the Metal
arm's unit-vector conversion hits the `assert!` (embedded error) — scatter
does panic on this degenerate input. -/
theorem C7_scatter_no_panic_counterexample :
    scatter (.Metal ⟨1, 1, 1⟩ (1/2)) zeroRay Vec3.ZERO ⟨0, 0, 1⟩ false Vec3.ZERO 0
      = .error () := by
  have hz : zeroRay.direction.norm = 0 := by
    unfold zeroRay Vec3.norm
    norm_num
  simp only [scatter, Vec3.to_unit_vec, if_pos hz]

/-- Claim C7 (amended: scatter's match over material kinds is exhaustive;
Lambertian never panics on any input, zero ray direction included; Metal
never panics provided the ray direction is nonzero — any fuzziness, outside
[0,1] included —, and Dialectric never panics provided additionally the
refraction index is not -1.  On a zero direction Metal and Dialectric do
panic in the unit-vector conversion). -/
theorem C7_scatter_no_panic :
    (∀ m : Material, (∃ al, m = .Lambertian al) ∨ (∃ al fz, m = .Metal al fz)
      ∨ (∃ ri, m = .Dialectric ri))
    ∧ (∀ (albedo : Color) (input_ray : Ray) (p nrm : Vec3) (i : Bool) (ru : Vec3) (u : ℝ),
        ∃ res, scatter (.Lambertian albedo) input_ray p nrm i ru u = .ok res)
    ∧ (∀ (albedo : Color) (fz : ℝ) (input_ray : Ray) (p nrm : Vec3) (i : Bool) (ru : Vec3)
        (u : ℝ), input_ray.direction ≠ Vec3.ZERO →
        ∃ res, scatter (.Metal albedo fz) input_ray p nrm i ru u = .ok res)
    ∧ (∀ (ri : ℝ) (input_ray : Ray) (p nrm : Vec3) (i : Bool) (ru : Vec3) (u : ℝ),
        input_ray.direction ≠ Vec3.ZERO → ri ≠ -1 →
        ∃ res, scatter (.Dialectric ri) input_ray p nrm i ru u = .ok res) := by
  refine ⟨?_, ?_, ?_, ?_⟩
  · intro m
    cases m with
    | Lambertian al => exact Or.inl ⟨al, rfl⟩
    | Metal al fz => exact Or.inr (Or.inl ⟨al, fz, rfl⟩)
    | Dialectric ri => exact Or.inr (Or.inr ⟨ri, rfl⟩)
  · intro albedo r p nrm i ru u
    obtain ⟨d, hd⟩ := lambertian_scatter_eq albedo r p nrm i ru u
    exact ⟨_, hd⟩
  · intro albedo fz r p nrm i ru u hdir
    have hnorm : r.direction.norm ≠ 0 := fun h => hdir ((Vec3.norm_eq_zero_iff _).mp h)
    simp only [scatter, Vec3.to_unit_vec, if_neg hnorm]
    by_cases hpos : 0 < (metal_direction ((1 / r.direction.norm) • r.direction) nrm fz ru).dot nrm
    · rw [if_pos hpos]
      exact ⟨_, rfl⟩
    · rw [if_neg hpos]
      exact ⟨_, rfl⟩
  · intro ri r p nrm i ru u hdir hri
    have hnorm : r.direction.norm ≠ 0 := fun h => hdir ((Vec3.norm_eq_zero_iff _).mp h)
    have htu : r.direction.to_unit_vec = some ((1 / r.direction.norm) • r.direction) := by
      rw [Vec3.to_unit_vec, if_neg hnorm]
    obtain ⟨d, hd⟩ := dialectric_scatter_eq ri r p nrm i ru u _ htu (ratio_ne_neg_one ri i hri)
    exact ⟨_, hd⟩

/-- Witness for C7: concrete no-panic runs — Lambertian on the zero-direction
ray, Metal with fuzziness 7 (outside [0,1]), and glass at index 1.52. -/
theorem C7_scatter_no_panic_witness :
    (∃ res, scatter (.Lambertian ⟨1, 0, 0⟩) zeroRay Vec3.ZERO ⟨0, 0, 1⟩ false Vec3.ZERO 0
        = .ok res)
    ∧ (∃ res, scatter (.Metal ⟨1, 0, 0⟩ 7) metalRay Vec3.ZERO ⟨0, 0, 1⟩ false Vec3.ZERO 0
        = .ok res)
    ∧ (∃ res, scatter (.Dialectric 1.52) metalRay Vec3.ZERO ⟨0, 0, 1⟩ false Vec3.ZERO 0
        = .ok res) := by
  refine ⟨?_, ?_, ?_⟩
  · exact C7_scatter_no_panic.2.1 ⟨1, 0, 0⟩ zeroRay Vec3.ZERO ⟨0, 0, 1⟩ false Vec3.ZERO 0
  · exact C7_scatter_no_panic.2.2.1 ⟨1, 0, 0⟩ 7 metalRay Vec3.ZERO ⟨0, 0, 1⟩ false Vec3.ZERO 0
      (by simp [metalRay, Vec3.ZERO])
  · exact C7_scatter_no_panic.2.2.2 1.52 metalRay Vec3.ZERO ⟨0, 0, 1⟩ false Vec3.ZERO 0
      (by simp [metalRay, Vec3.ZERO]) (by norm_num)

/-! ## camera.rs: C9 -/

/-- Claim C9: for `s, t ∈ [0,1]` and any lens-offset draw, the ray sent by
the camera satisfies `origin + direction = lower_left_corner + s*horizontal +
t*vertical`; equivalently `ray.at(1)` is independent of the lens offset. -/
theorem C9_send_ray_towards (cam : Camera) (s t : ℝ) (ruv : Vec3)
    (hs0 : 0 ≤ s) (hs1 : s ≤ 1) (ht0 : 0 ≤ t) (ht1 : t ≤ 1) :
    (cam.send_ray_towards s t ruv).origin + (cam.send_ray_towards s t ruv).direction
      = cam.lower_left_corner + s • cam.horizontal + t • cam.vertical
    ∧ (cam.send_ray_towards s t ruv).at 1
      = cam.lower_left_corner + s • cam.horizontal + t • cam.vertical := by
  unfold Camera.send_ray_towards Ray.at
  constructor <;> (ext <;> simp <;> ring)

/-- A concrete camera with a nontrivial lens radius. -/
def demoCamera : Camera :=
  ⟨⟨0, 0, 0⟩, ⟨-1, -1, -1⟩, ⟨2, 0, 0⟩, ⟨0, 2, 0⟩, ⟨1, 0, 0⟩, ⟨0, 1, 0⟩, ⟨0, 0, 1⟩, 1⟩

/-- Witness for C9 at the image center with a concrete lens draw. -/
theorem C9_send_ray_towards_witness :
    (demoCamera.send_ray_towards (1/2) (1/2) ⟨1, 0, 0⟩).origin
        + (demoCamera.send_ray_towards (1/2) (1/2) ⟨1, 0, 0⟩).direction
      = demoCamera.lower_left_corner + (1/2 : ℝ) • demoCamera.horizontal
        + (1/2 : ℝ) • demoCamera.vertical :=
  (C9_send_ray_towards demoCamera (1/2) (1/2) ⟨1, 0, 0⟩ (by norm_num) (by norm_num)
    (by norm_num) (by norm_num)).1
